import Mathlib

/-!
Shallow embedding of `src/intellisense.ts` (VSLilyPondPP): the debounced,
single-in-flight LilyPond diagnostics pipeline.  Pure functions of the source
(the stderr parser, the location resolver, argument composition, the
diagnostic-collection updates) are translated into executable Lean functions;
the stateful parts (the module-level process handle and debounce timer) become
explicit step functions on small state types.  Editor API types
(`vscode.Uri`, `vscode.Range`, `vscode.DiagnosticCollection`) are modelled as
plain structures; node's `fs.existsSync` is modelled against an explicit list
of existing filesystem entries, and node's posix `path` helpers are modelled
for the slash-separated paths this pipeline manipulates (no `..`/`.`
normalisation, which the pipeline never relies on).
-/

/-! ### Filesystem and path model -/

/-- The set of existing filesystem entries, modelling what `fs.existsSync`
answers `true` for. -/
abbrev FileSystem := List String

/-- Models `fs.existsSync`. -/
def existsSync (fs : FileSystem) (p : String) : Bool :=
  fs.contains p

/-- Models node `path.isAbsolute` for posix paths: the path starts with a
slash. -/
def pathIsAbsolute (p : String) : Bool :=
  match p.data with
  | c :: _ => c == '/'
  | [] => false

/-- Models node `path.dirname` for posix paths: everything before the last
slash; `.` when there is no slash, `/` when the last slash is the leading
one.  (Duplicate-separator normalisation is not modelled.) -/
def pathDirname (p : String) : String :=
  match p.data.reverse.dropWhile (fun c => !(c == '/')) with
  | [] => "."
  | [_] => "/"
  | _ :: rest => String.mk rest.reverse

/-- Models node `path.join` on two segments: concatenation with a single
separator (no `..`/`.` normalisation; the pipeline only joins plain relative
names reported by the compiler). -/
def pathJoin (a b : String) : String :=
  if a = "" then b
  else if b = "" then a
  else String.mk (a.data ++ '/' :: b.data)

/-! ### Editor data model -/

/-- Models `vscode.Uri` as its filesystem path (the only part the source
consults); `vscode.Uri.file p` is `Uri.file p`. -/
structure Uri where
  fsPath : String
deriving DecidableEq, Repr

/-- Models `vscode.Uri.file`. -/
def Uri.file (p : String) : Uri := ⟨p⟩

/-- Models the slice of `vscode.TextDocument` the source uses: its identity
(`doc.uri`) and its text (`doc.getText()`). -/
structure TextDocument where
  uri : Uri
  text : String
deriving DecidableEq, Repr

/-- Models `vscode.DiagnosticSeverity`. -/
inductive DiagnosticSeverity where
  | Error
  | Warning
  | Information
  | Hint
deriving DecidableEq, Repr

/-- Models `vscode.Range` flattened to its four coordinates, as built by
`new vscode.Range(startLine, startCol, endLine, endCol)`.  Coordinates are
integers: the source computes them by subtracting 1 from parsed numbers. -/
structure Range where
  startLine : Int
  startCol : Int
  endLine : Int
  endCol : Int
deriving DecidableEq, Repr

/-- Models the source's `DiagnosticInfo` record. -/
structure DiagnosticInfo where
  uri : Uri
  range : Range
  severity : DiagnosticSeverity
  errMsg : String
deriving DecidableEq, Repr

/-- Models `vscode.Diagnostic` (the fields the source sets). -/
structure Diagnostic where
  severity : DiagnosticSeverity
  range : Range
  message : String
deriving DecidableEq, Repr

/-- Models `vscode.DiagnosticCollection` as an association list from file
identity to its ordered diagnostics. -/
abbrev DiagCol := List (Uri × List Diagnostic)

/-- Models `diagCol.get(uri)` (absent key gives `undefined`, here `none`). -/
def DiagCol.get (col : DiagCol) (u : Uri) : Option (List Diagnostic) :=
  List.lookup u col

/-- Models `diagCol.set(uri, diags)`: replace the entry for `uri`, or create
it. -/
def DiagCol.set (col : DiagCol) (u : Uri) (ds : List Diagnostic) : DiagCol :=
  if col.any (fun p => p.1 == u) then
    col.map (fun p => if p.1 == u then (u, ds) else p)
  else
    col ++ [(u, ds)]

/-- Models `diagCol.delete(uri)`. -/
def DiagCol.delete (col : DiagCol) (u : Uri) : DiagCol :=
  col.filter (fun p => !(p.1 == u))

/-- Models `diagCol.clear()`: all entries for all files are removed. -/
def DiagCol.clear (_col : DiagCol) : DiagCol :=
  []

/-! ### Error-text parser

The source matches stderr chunks against the global regex

  `([^\n\r]+):(\d+):(\d+): (error|warning): ([^\n\r]+)`  (flags `gm`)

in a `while (errMsgRegex.exec(output))` loop.  The embedding reproduces
JavaScript `exec` semantics for this pattern: scan for the leftmost match
position, let the greedy first group take the longest prefix of non-newline
characters for which the rest of the pattern still matches, and continue the
scan after the end of each match. -/

/-- A character matched by `[^\n\r]`. -/
def isNotNewline (c : Char) : Bool :=
  !(c == '\n') && !(c == '\r')

/-- Numeric value of a digit string, as `Number.parseInt(s, 10)` on the
digits captured by `\d+`. -/
def natOfDigits (ds : List Char) : Nat :=
  ds.foldl (fun acc c => 10 * acc + (c.toNat - '0'.toNat)) 0

/-- The record captured by one regex match: groups 1-5. -/
structure RawErrorRecord where
  rawPath : String
  line : Nat
  column : Nat
  kind : String
  message : String
deriving DecidableEq, Repr

/-- Matches the `(error|warning)` alternation at the head of `l`
(`error` tried first, as in the regex). -/
def matchSeverityWord (l : List Char) : Option (String × List Char) :=
  if l.take 5 = "error".data then some ("error", l.drop 5)
  else if l.take 7 = "warning".data then some ("warning", l.drop 7)
  else none

/-- Matches the part of the regex after the first group:
`:(\d+):(\d+): (error|warning): ([^\n\r]+)`.  Returns the parsed line,
column, severity keyword and message, plus the input remaining after the
match.  The digit groups and the message group are greedy; none of them can
profit from backtracking (each is followed by a character it cannot match),
so maximal munch is faithful. -/
def matchAfterPath (l : List Char) :
    Option (Nat × Nat × String × String × List Char) :=
  match l with
  | ':' :: l1 =>
    let ds1 := l1.takeWhile Char.isDigit
    let r1 := l1.dropWhile Char.isDigit
    if ds1.isEmpty then none else
    match r1 with
    | ':' :: l2 =>
      let ds2 := l2.takeWhile Char.isDigit
      let r2 := l2.dropWhile Char.isDigit
      if ds2.isEmpty then none else
      match r2 with
      | ':' :: ' ' :: l3 =>
        match matchSeverityWord l3 with
        | some (kw, l4) =>
          match l4 with
          | ':' :: ' ' :: l5 =>
            let msg := l5.takeWhile isNotNewline
            if msg.isEmpty then none
            else some (natOfDigits ds1, natOfDigits ds2, kw, String.mk msg,
                       l5.dropWhile isNotNewline)
          | _ => none
        | none => none
      | _ => none
    | _ => none
  | _ => none

/-- `longestFrom f k` returns `f` at the largest index in `[1, k]` at which
it succeeds, together with that index: the greedy (longest-first) choice for
the first regex group. -/
def longestFrom (f : Nat → Option α) : Nat → Option (Nat × α)
  | 0 => none
  | k + 1 =>
    match f (k + 1) with
    | some a => some (k + 1, a)
    | none => longestFrom f k

/-- One `exec` scan step: skip newline characters; at a non-newline
character, the leftmost possible match starts here, its first group lying
inside the maximal non-newline run; the greedy first group is the longest
prefix of the run after which `matchAfterPath` succeeds.  `fuel` dominates
the input length (every step consumes at least one character). -/
def errMsgRegexScan : Nat → List Char → List RawErrorRecord
  | 0, _ => []
  | _ + 1, [] => []
  | fuel + 1, c :: cs =>
    if isNotNewline c then
      let run := (c :: cs).takeWhile isNotNewline
      let rest := (c :: cs).dropWhile isNotNewline
      match longestFrom (fun k => matchAfterPath (run.drop k ++ rest)) run.length with
      | some (k, (lineNo, colNo, kw, msg, after)) =>
        { rawPath := String.mk (run.take k), line := lineNo, column := colNo,
          kind := kw, message := msg } :: errMsgRegexScan fuel after
      | none => errMsgRegexScan fuel rest
    else
      errMsgRegexScan fuel cs

/-- All matches of `errMsgRegex` against a chunk, in order: the records the
`while (errGroup = errMsgRegex.exec(output))` loop iterates over. -/
def errMsgRegexExecAll (output : String) : List RawErrorRecord :=
  errMsgRegexScan (output.data.length + 1) output.data

/-- Models `getDiagSeverity` (the `switch` in the source): `error` maps to
`Error`, `warning` to `Warning`, anything else defaults to `Error`. -/
def getDiagSeverity (s : String) : DiagnosticSeverity :=
  if s = "error" then .Error
  else if s = "warning" then .Warning
  else .Error

/-! ### Location resolver -/

/-- Models the inner `getUri` closure of `processIntellisenseErrors`
(src/intellisense.ts lines 93-110): the sentinel `-` resolves to the current
document; an absolute, existing path resolves to itself; a path that exists
relative to the document's directory resolves to the joined path; otherwise
the closure throws, which the embedding returns as `Except.error` with the
source's message text. -/
def getUri (fs : FileSystem) (doc : TextDocument) (gotPath : String) :
    Except String Uri :=
  if gotPath = "-" then
    .ok doc.uri
  else if pathIsAbsolute gotPath && existsSync fs gotPath then
    .ok (Uri.file gotPath)
  else if existsSync fs (pathJoin (pathDirname doc.uri.fsPath) gotPath) then
    .ok (Uri.file (pathJoin (pathDirname doc.uri.fsPath) gotPath))
  else
    .error ("Error in `" ++ gotPath ++ "`")

/-! ### Diagnostic aggregation -/

/-- Models `addToDiagCol`: append the diagnostic to the entry already present
for its uri (an absent entry counts as `[]`), preserving arrival order. -/
def addToDiagCol (diag : DiagnosticInfo) (diagCol : DiagCol) : DiagCol :=
  let currentDiags := (diagCol.get diag.uri).getD []
  let newDiags := currentDiags ++ [⟨diag.severity, diag.range, diag.errMsg⟩]
  diagCol.set diag.uri newDiags

/-- The per-record body of the `while` loop in `processIntellisenseErrors`:
resolve the raw path (a failure is the thrown error the `catch` sees), then
build the `DiagnosticInfo` with 0-based coordinates.  (The editor API's own
validation of `vscode.Range` arguments is external and not modelled.) -/
def processRecord (fs : FileSystem) (doc : TextDocument)
    (r : RawErrorRecord) : Except String DiagnosticInfo :=
  match getUri fs doc r.rawPath with
  | .error e => .error e
  | .ok uri =>
    .ok { uri := uri,
          range := { startLine := (r.line : Int) - 1, startCol := 0,
                     endLine := (r.line : Int) - 1,
                     endCol := (r.column : Int) - 1 },
          severity := getDiagSeverity r.kind,
          errMsg := r.message }

/-- Models `processIntellisenseErrors` on one stderr chunk: every regex match
is processed in order; a record whose resolution fails is dropped and logged
(the `catch` branch writes to the output channel), and the remaining records
are still processed.  State is the diagnostic collection plus the log of
channel messages. -/
def processIntellisenseErrors (output : String) (doc : TextDocument)
    (fs : FileSystem) (st : DiagCol × List String) : DiagCol × List String :=
  (errMsgRegexExecAll output).foldl
    (fun st r =>
      match processRecord fs doc r with
      | .ok diag => (addToDiagCol diag st.1, st.2)
      | .error e => (st.1, st.2 ++ ["Intellisense error: " ++ e ++ ", " ++ output]))
    st

/-! ### Process Runner (diagnostics view)

`execIntellisense` (src/intellisense.ts lines 134-187) first clears the
diagnostic collection, composes the argument vector, kills any prior process,
spawns the compiler with the document directory as working directory, writes
the document text to stdin, and feeds every stderr chunk through
`processIntellisenseErrors`.  The external process itself is modelled by the
list of stderr chunks it will emit; the spawn call is modelled by the record
of what was passed to it. -/

/-- The slice of configuration `execIntellisense` reads. -/
structure Config where
  additionalCommandLineArguments : String
deriving DecidableEq, Repr

/-- A character of the JavaScript whitespace class as used by
`String.prototype.trim` and the regex `\s` (ASCII subset; the configuration
strings at stake contain no exotic unicode spaces). -/
def isWhitespaceChar (c : Char) : Bool :=
  c == ' ' || c == '\t' || c == '\n' || c == '\r' || c == '\x0b' || c == '\x0c'

/-- Models JavaScript `String.prototype.trim`. -/
def jsTrim (s : String) : String :=
  String.mk (((s.data.dropWhile isWhitespaceChar).reverse.dropWhile
    isWhitespaceChar).reverse)

/-- Worker for `jsSplitWhitespace`.  The second argument is the current
segment being collected (`some acc`, reversed), or `none` when the scanner
is inside a separator run.  Matches JavaScript `split(/\s+/)`: segments are
the texts between maximal whitespace runs, including an empty leading
segment when the string starts with whitespace and an empty trailing segment
when it ends with whitespace; splitting the empty string gives `[""]`. -/
def splitWsAux : List Char → Option (List Char) → List String
  | [], none => [""]
  | [], some acc => [String.mk acc.reverse]
  | c :: cs, none =>
    if isWhitespaceChar c then splitWsAux cs none
    else splitWsAux cs (some [c])
  | c :: cs, some acc =>
    if isWhitespaceChar c then String.mk acc.reverse :: splitWsAux cs none
    else splitWsAux cs (some (c :: acc))

/-- Models JavaScript `s.split(/\s+/)`. -/
def jsSplitWhitespace (s : String) : List String :=
  splitWsAux s.data (some [])

/-- The fixed trailing arguments of the source (`intellisenseArgs`). -/
def intellisenseArgs : List String :=
  ["--loglevel=WARNING", "--define-default=backend=null", "-"]

/-- What `cp.spawn` was invoked with, plus what was written to stdin. -/
structure SpawnRecord where
  bin : String
  args : List String
  cwd : String
  stdinText : String
deriving DecidableEq, Repr

/-- The observable outcome of one `execIntellisense` run. -/
structure RunResult where
  diagCol : DiagCol
  log : List String
  spawn : SpawnRecord
deriving DecidableEq, Repr

/-- Models `execIntellisense`'s diagnostic pipeline: clear the collection,
compose `args` as the trimmed, whitespace-split user arguments followed by
`intellisenseArgs`, spawn with `cwd` the document's directory and the
document text on stdin, and process the stderr chunks in order starting from
the cleared collection. -/
def execIntellisense (binPath : String) (config : Config) (fs : FileSystem)
    (doc : TextDocument) (stderrChunks : List String) (prior : DiagCol) :
    RunResult :=
  let cleared := DiagCol.clear prior
  let additionalArgs :=
    jsSplitWhitespace (jsTrim config.additionalCommandLineArguments)
  let args := additionalArgs ++ intellisenseArgs
  let spawn : SpawnRecord :=
    { bin := binPath, args := args, cwd := pathDirname doc.uri.fsPath,
      stdinText := doc.text }
  let final := stderrChunks.foldl
    (fun st chunk => processIntellisenseErrors chunk doc fs st) (cleared, [])
  { diagCol := final.1, log := final.2, spawn := spawn }

/-! ### Process Runner (process-slot view)

The module-level variable `intellisenseProcess` holds at most one child
process handle.  `execIntellisense` kills and discards the held process
before spawning (lines 153-158), and every spawned process registers a
`close` handler that unconditionally resets the variable (lines 175-178).
The step system below tracks the handle variable together with the ground
truth: which spawned processes are still running (`live`) and which have
been terminated but have a `close` event still to be delivered
(`pendingClose`).  Process ids are allocated in spawn order. -/

structure ProcState where
  intellisenseProcess : Option Nat
  live : List Nat
  pendingClose : List Nat
  nextPid : Nat
deriving DecidableEq, Repr

/-- Events of the process subsystem: a run firing, or the `close` event of a
spawned process being delivered. -/
inductive ProcEvent where
  | run
  | close (pid : Nat)
deriving DecidableEq, Repr

/-- Lines 153-156: `if (intellisenseProcess) { intellisenseProcess.kill();
intellisenseProcess = undefined; }`.  The killed process stops running, its
`close` event becomes pending. -/
def killCurrent (s : ProcState) : ProcState :=
  match s.intellisenseProcess with
  | some pid =>
    { s with live := s.live.erase pid,
             pendingClose := s.pendingClose ++ [pid],
             intellisenseProcess := none }
  | none => s

/-- Line 158: `intellisenseProcess = cp.spawn(...)`. -/
def spawnNew (s : ProcState) : ProcState :=
  { s with live := s.live ++ [s.nextPid],
           intellisenseProcess := some s.nextPid,
           nextPid := s.nextPid + 1 }

/-- One event of the process subsystem.  A `run` is the process-slot effect
of `execIntellisense`.  A `close pid` is node delivering the `close` event
of a process that ran (still live, i.e. exiting on its own, or killed with
its close pending); its handler — lines 175-178 — logs and unconditionally
sets `intellisenseProcess = undefined`. -/
def procStep (s : ProcState) : ProcEvent → ProcState
  | .run => spawnNew (killCurrent s)
  | .close pid =>
    if pid ∈ s.live ∨ pid ∈ s.pendingClose then
      { s with live := s.live.erase pid,
               pendingClose := s.pendingClose.erase pid,
               intellisenseProcess := none }
    else s

/-- The initial module state: no process spawned yet. -/
def procInit : ProcState :=
  { intellisenseProcess := none, live := [], pendingClose := [], nextPid := 0 }

/-- Folding a sequence of events from the initial state. -/
def procRun (events : List ProcEvent) : ProcState :=
  events.foldl procStep procInit

/-! ### Debounce Scheduler

`triggerIntellisense` (src/intellisense.ts lines 43-49) clears the pending
timer held in the module variable `timeout` (if any) and arms a new 500ms
timer whose callback runs `execIntellisense` on the triggering document.
The timer callback does not reset the `timeout` variable; `clearTimeout` on
an already-fired id is a no-op, which the model reproduces by removing fired
timers from `armed`.  Times are in milliseconds. -/

structure TimerEntry where
  id : Nat
  deadline : Nat
  doc : TextDocument
deriving DecidableEq, Repr

structure SchedState where
  timeoutVar : Option Nat
  armed : List TimerEntry
  nextId : Nat
  runs : List TextDocument
deriving DecidableEq, Repr

/-- Models `clearTimeout(timeout)`: the timer with that id will not fire
any more (a no-op if it already fired or never existed). -/
def clearTimeoutModel (s : SchedState) (id : Nat) : SchedState :=
  { s with armed := s.armed.filter (fun e => !(e.id == id)) }

/-- Models `triggerIntellisense` at time `now`: clear the timer recorded in
the `timeout` variable, then arm a fresh timer for `now + 500` carrying the
triggering document, and record its id in the variable. -/
def triggerIntellisense (now : Nat) (doc : TextDocument) (s : SchedState) :
    SchedState :=
  let s1 :=
    match s.timeoutVar with
    | some id => { clearTimeoutModel s id with timeoutVar := none }
    | none => s
  { s1 with armed := s1.armed ++ [⟨s1.nextId, now + 500, doc⟩],
            timeoutVar := some s1.nextId,
            nextId := s1.nextId + 1 }

/-- The runtime delivering timer `id`'s callback at time `now`: only a still
armed timer whose deadline has been reached fires; firing disarms it and
invokes the Process Runner on the document captured by the closure.  The
`timeout` variable is not reset by the callback (as in the source). -/
def fireTimer (now : Nat) (id : Nat) (s : SchedState) : SchedState :=
  match s.armed.find? (fun e => e.id == id) with
  | some e =>
    if e.deadline ≤ now then
      { s with armed := s.armed.filter (fun x => !(x.id == id)),
               runs := s.runs ++ [e.doc] }
    else s
  | none => s

/-- Folding a sequence of (time, document) trigger events. -/
def runTriggers (tds : List (Nat × TextDocument)) (s : SchedState) :
    SchedState :=
  tds.foldl (fun s td => triggerIntellisense td.1 td.2 s) s

/-- The initial scheduler state: no timer armed, no run performed. -/
def schedInit : SchedState :=
  { timeoutVar := none, armed := [], nextId := 0, runs := [] }

/-- The `onDidCloseTextDocument` subscription (src/intellisense.ts lines
207-209): closing a document deletes its entry from the collection. -/
def onDidCloseTextDocument (doc : TextDocument) (diagCol : DiagCol) : DiagCol :=
  diagCol.delete doc.uri

/-! ### Helper lemmas -/

/-- Deleting a uri's entry makes its lookup empty. -/
theorem DiagCol.get_delete_self (col : DiagCol) (u : Uri) :
    DiagCol.get (DiagCol.delete col u) u = none := by
  induction col with
  | nil => rfl
  | cons hd tl ih =>
    obtain ⟨k, v⟩ := hd
    by_cases hk : k = u
    · have hkeep : (!(k == u)) = false := by simp [hk]
      simp only [DiagCol.delete, List.filter_cons, hkeep, Bool.false_eq_true,
        if_false]
      simpa [DiagCol.delete] using ih
    · have hku : (u == k) = false := beq_eq_false_iff_ne.mpr fun h => hk h.symm
      have hkeep : (!(k == u)) = true := by simp [hk]
      simp only [DiagCol.delete, List.filter_cons, hkeep, if_true]
      simp only [DiagCol.get, List.lookup, hku]
      simpa [DiagCol.delete, DiagCol.get] using ih

/-- Deleting a uri's entry leaves every other uri's lookup unchanged. -/
theorem DiagCol.get_delete_of_ne (col : DiagCol) (u v : Uri) (huv : v ≠ u) :
    DiagCol.get (DiagCol.delete col u) v = DiagCol.get col v := by
  induction col with
  | nil => rfl
  | cons hd tl ih =>
    obtain ⟨k, w⟩ := hd
    by_cases hk : k = u
    · have hkeep : (!(k == u)) = false := by simp [hk]
      have hvk : (v == k) = false := by
        subst hk; exact beq_eq_false_iff_ne.mpr huv
      simp only [DiagCol.delete, List.filter_cons, hkeep, Bool.false_eq_true,
        if_false, DiagCol.get, List.lookup, hvk]
      simpa [DiagCol.delete, DiagCol.get] using ih
    · have hkeep : (!(k == u)) = true := by simp [hk]
      simp only [DiagCol.delete, List.filter_cons, hkeep, if_true,
        DiagCol.get, List.lookup]
      cases hvk : v == k with
      | true => rfl
      | false => simpa [DiagCol.delete, DiagCol.get] using ih

/-- A chunk without a regex match leaves the processing state untouched. -/
theorem processIntellisenseErrors_no_match (output : String)
    (doc : TextDocument) (fs : FileSystem) (st : DiagCol × List String)
    (h : errMsgRegexExecAll output = []) :
    processIntellisenseErrors output doc fs st = st := by
  simp [processIntellisenseErrors, h]

/-- Folding chunks none of which contains a regex match leaves the
processing state untouched. -/
theorem foldl_processIntellisenseErrors_no_match (doc : TextDocument)
    (fs : FileSystem) :
    ∀ (chunks : List String) (st : DiagCol × List String),
      (∀ c ∈ chunks, errMsgRegexExecAll c = []) →
      chunks.foldl (fun st chunk => processIntellisenseErrors chunk doc fs st)
        st = st := by
  intro chunks
  induction chunks with
  | nil => intro st _; rfl
  | cons c cs ih =>
    intro st hall
    have hc : errMsgRegexExecAll c = [] := hall c (by simp)
    have hcs : ∀ x ∈ cs, errMsgRegexExecAll x = [] :=
      fun x hx => hall x (by simp [hx])
    simp only [List.foldl_cons,
      processIntellisenseErrors_no_match c doc fs st hc]
    exact ih st hcs

/-- The diagnostic collection produced by processing the records of one
chunk is the fold of `addToDiagCol` over exactly the resolvable records, in
order: a record whose resolution fails changes only the log. -/
theorem processIntellisenseErrors_foldl_resolvable (fs : FileSystem)
    (doc : TextDocument) (output : String) :
    ∀ (rs : List RawErrorRecord) (col : DiagCol) (log : List String),
      (rs.foldl
        (fun st r =>
          match processRecord fs doc r with
          | .ok diag => (addToDiagCol diag st.1, st.2)
          | .error e =>
            (st.1, st.2 ++ ["Intellisense error: " ++ e ++ ", " ++ output]))
        (col, log)).1 =
      (rs.filterMap (fun r => (processRecord fs doc r).toOption)).foldl
        (fun c d => addToDiagCol d c) col := by
  intro rs
  induction rs with
  | nil => intro col log; rfl
  | cons r rest ih =>
    intro col log
    cases hr : processRecord fs doc r with
    | ok diag => simp [hr, List.filterMap_cons, Except.toOption, ih]
    | error e => simp [hr, List.filterMap_cons, Except.toOption, ih]

/-! ### Claims -/

/-- C2: the resolver's exact precedence: the sentinel `-` resolves to the
current document regardless of filesystem state; otherwise an absolute path
with an existing filesystem entry resolves to itself; otherwise a raw path
that exists joined to the document's directory resolves to that joined
path; otherwise resolution fails. -/
theorem claimC2_getUri_precedence (fs : FileSystem) (doc : TextDocument)
    (p : String) :
    (p = "-" → getUri fs doc p = .ok doc.uri) ∧
    (p ≠ "-" → (pathIsAbsolute p && existsSync fs p) = true →
      getUri fs doc p = .ok (Uri.file p)) ∧
    (p ≠ "-" → (pathIsAbsolute p && existsSync fs p) = false →
      existsSync fs (pathJoin (pathDirname doc.uri.fsPath) p) = true →
      getUri fs doc p = .ok (Uri.file (pathJoin (pathDirname doc.uri.fsPath) p))) ∧
    (p ≠ "-" → (pathIsAbsolute p && existsSync fs p) = false →
      existsSync fs (pathJoin (pathDirname doc.uri.fsPath) p) = false →
      getUri fs doc p = .error ("Error in `" ++ p ++ "`")) := by
  refine ⟨fun h1 => ?_, fun h1 h2 => ?_, fun h1 h2 h3 => ?_, fun h1 h2 h3 => ?_⟩
  · simp [getUri, h1]
  · simp [getUri, h1, h2]
  · simp [getUri, h1, h2, h3]
  · simp [getUri, h1, h2, h3]

/-- Witness for C2 at concrete inputs: with an empty filesystem the sentinel
`-` still resolves to the document itself. -/
theorem claimC2_getUri_precedence_witness :
    getUri [] ⟨⟨"/abs/doc.ly"⟩, "music"⟩ "-" =
      .ok (⟨⟨"/abs/doc.ly"⟩, "music"⟩ : TextDocument).uri :=
  (claimC2_getUri_precedence [] ⟨⟨"/abs/doc.ly"⟩, "music"⟩ "-").1 rfl

/-- C4 counterexample: a stderr line whose severity keyword is `fatal`
(neither `error` nor `warning`) is not matched by `errMsgRegex` at all, so
the parser yields no record for it — contradicting the claim that such a
line still yields a record with `Error` severity. -/
theorem claimC4_counterexample :
    errMsgRegexExecAll "/abs/path.ly:12:5: fatal: bad note" = [] ∧
    ∀ r : RawErrorRecord,
      r ∉ errMsgRegexExecAll "/abs/path.ly:12:5: fatal: bad note" := by
  have h : errMsgRegexExecAll "/abs/path.ly:12:5: fatal: bad note" = [] := by
    decide
  exact ⟨h, fun r hr => by simp [h] at hr⟩

/-- C4 (amended): the regex only matches the severity keywords `error` and
`warning`, so a line with any other keyword yields no record; the severity
mapping `getDiagSeverity`, however, does send every keyword other than
`error` and `warning` to `Error` — the documented fallback exists in the
mapping but is unreachable through the parser. -/
theorem claimC4_severity_default (s : String) (h1 : s ≠ "error")
    (h2 : s ≠ "warning") :
    getDiagSeverity s = .Error ∧
    errMsgRegexExecAll "/abs/path.ly:12:5: fatal: bad note" = [] := by
  constructor
  · simp [getDiagSeverity, h1, h2]
  · decide

/-- Witness for C4 (amended) at the keyword `fatal`. -/
theorem claimC4_severity_default_witness :
    ("fatal" : String) ≠ "error" ∧ ("fatal" : String) ≠ "warning" ∧
    (getDiagSeverity "fatal" = .Error ∧
      errMsgRegexExecAll "/abs/path.ly:12:5: fatal: bad note" = []) :=
  ⟨by decide, by decide, claimC4_severity_default "fatal" (by decide) (by decide)⟩

/-- C5: the at-most-one-live-process invariant fails on the code.  The
`close` handler of every spawned process unconditionally resets the shared
handle variable.  After the event sequence run, run (kills pid 0, spawns
pid 1), close of pid 0 (clears the handle while pid 1 is still running),
run (sees no handle, kills nothing, spawns pid 2), processes 1 and 2 are
both live: a reachable state with two concurrent compiler processes. -/
theorem claimC5_two_live_processes :
    procRun [.run, .run, .close 0, .run] =
      { intellisenseProcess := some 2, live := [1, 2], pendingClose := [],
        nextPid := 3 } ∧
    (procRun [.run, .run, .close 0, .run]).live.length = 2 := by
  decide

/-- C9: closing a document removes exactly that document's entry from the
diagnostic collection and leaves every other file's entry unchanged. -/
theorem claimC9_close_document (doc : TextDocument) (col : DiagCol) :
    DiagCol.get (onDidCloseTextDocument doc col) doc.uri = none ∧
    ∀ u : Uri, u ≠ doc.uri →
      DiagCol.get (onDidCloseTextDocument doc col) u = DiagCol.get col u := by
  refine ⟨DiagCol.get_delete_self col doc.uri, fun u hu => ?_⟩
  exact DiagCol.get_delete_of_ne col doc.uri u hu

/-- Witness for C9 at a concrete collection holding two files. -/
theorem claimC9_close_document_witness :
    DiagCol.get
      (onDidCloseTextDocument ⟨⟨"/a.ly"⟩, "m"⟩
        [(⟨"/a.ly"⟩, []), (⟨"/b.ly"⟩, [])]) ⟨"/a.ly"⟩ = none ∧
    DiagCol.get
      (onDidCloseTextDocument ⟨⟨"/a.ly"⟩, "m"⟩
        [(⟨"/a.ly"⟩, []), (⟨"/b.ly"⟩, [])]) ⟨"/b.ly"⟩ =
      DiagCol.get [(⟨"/a.ly"⟩, []), (⟨"/b.ly"⟩, [])] ⟨"/b.ly"⟩ :=
  ⟨(claimC9_close_document ⟨⟨"/a.ly"⟩, "m"⟩
      [(⟨"/a.ly"⟩, []), (⟨"/b.ly"⟩, [])]).1,
   (claimC9_close_document ⟨⟨"/a.ly"⟩, "m"⟩
      [(⟨"/a.ly"⟩, []), (⟨"/b.ly"⟩, [])]).2 ⟨"/b.ly"⟩ (by decide)⟩

/-- Every segment produced by `splitWsAux` consists of non-whitespace
characters (segments only ever collect characters from the non-whitespace
branch). -/
theorem splitWsAux_no_ws :
    ∀ (l : List Char) (acc : List Char),
      (∀ c ∈ acc, isWhitespaceChar c = false) →
      (∀ a ∈ splitWsAux l (some acc), ∀ c ∈ a.data,
        isWhitespaceChar c = false) ∧
      (∀ a ∈ splitWsAux l none, ∀ c ∈ a.data, isWhitespaceChar c = false) := by
  intro l
  induction l with
  | nil =>
    intro acc hacc
    constructor
    · intro a ha c hc
      simp [splitWsAux] at ha
      subst ha
      have : (String.mk acc.reverse).data = acc.reverse := rfl
      rw [this] at hc
      exact hacc c (List.mem_reverse.mp hc)
    · intro a ha c hc
      simp [splitWsAux] at ha
      subst ha
      simp at hc
  | cons ch cs ih =>
    intro acc hacc
    constructor
    · intro a ha c hc
      by_cases hw : isWhitespaceChar ch
      · simp only [splitWsAux, hw, if_true, List.mem_cons] at ha
        cases ha with
        | inl h =>
          subst h
          have : (String.mk acc.reverse).data = acc.reverse := rfl
          rw [this] at hc
          exact hacc c (List.mem_reverse.mp hc)
        | inr h => exact (ih acc hacc).2 a h c hc
      · simp only [splitWsAux, hw, if_false] at ha
        have haccext : ∀ x ∈ ch :: acc, isWhitespaceChar x = false := by
          intro x hx
          rcases List.mem_cons.mp hx with h | h
          · subst h
            simpa using hw
          · exact hacc x h
        exact (ih (ch :: acc) haccext).1 a ha c hc
    · intro a ha c hc
      by_cases hw : isWhitespaceChar ch
      · simp only [splitWsAux, hw, if_true] at ha
        exact (ih acc hacc).2 a ha c hc
      · simp only [splitWsAux, hw, if_false] at ha
        have hone : ∀ x ∈ [ch], isWhitespaceChar x = false := by
          intro x hx
          simp at hx
          subst hx
          simpa using hw
        exact (ih [ch] hone).1 a ha c hc

/-- Concrete data shared by several witnesses. -/
def exampleDoc : TextDocument := ⟨⟨"/abs/doc.ly"⟩, "music"⟩

def exampleFs : FileSystem := ["/abs/path.ly"]

def exampleRecord : RawErrorRecord := ⟨"/abs/path.ly", 12, 5, "error", "bad note"⟩

def exampleDiag : DiagnosticInfo :=
  ⟨⟨"/abs/path.ly"⟩, ⟨11, 0, 11, 4⟩, .Error, "bad note"⟩

/-- C1: every parsed record is mapped to a diagnostic whose single-line
range sits on the parsed 1-based line minus 1, spanning column 0 to the
parsed 1-based column minus 1, whose severity maps `error` to `Error` and
`warning` to `Warning`, and whose message is the captured rest of the
line. -/
theorem claimC1_record_to_diagnostic (output : String) (fs : FileSystem)
    (doc : TextDocument) (r : RawErrorRecord) (d : DiagnosticInfo)
    (_hr : r ∈ errMsgRegexExecAll output)
    (hd : processRecord fs doc r = .ok d) :
    d.range.startLine = (r.line : Int) - 1 ∧
    d.range.endLine = (r.line : Int) - 1 ∧
    d.range.startCol = 0 ∧
    d.range.endCol = (r.column : Int) - 1 ∧
    d.errMsg = r.message ∧
    d.severity = getDiagSeverity r.kind ∧
    (r.kind = "error" → d.severity = .Error) ∧
    (r.kind = "warning" → d.severity = .Warning) := by
  unfold processRecord at hd
  cases hg : getUri fs doc r.rawPath with
  | error e => rw [hg] at hd; cases hd
  | ok uri =>
    rw [hg] at hd
    cases hd
    refine ⟨rfl, rfl, rfl, rfl, rfl, rfl, fun hk => ?_, fun hk => ?_⟩
    · simp [getDiagSeverity, hk]
    · simp [getDiagSeverity, hk]

/-- Witness for C1 on the spec's example line
`/abs/path.ly:12:5: error: bad note`: the parser yields the record with
line 12, column 5, keyword `error`, message `bad note`, and the produced
diagnostic has 0-based line 11, columns 0 to 4, severity `Error`. -/
theorem claimC1_record_to_diagnostic_witness :
    exampleRecord ∈ errMsgRegexExecAll "/abs/path.ly:12:5: error: bad note" ∧
    processRecord exampleFs exampleDoc exampleRecord = .ok exampleDiag ∧
    (exampleDiag.range.startLine = (exampleRecord.line : Int) - 1 ∧
     exampleDiag.range.endLine = (exampleRecord.line : Int) - 1 ∧
     exampleDiag.range.startCol = 0 ∧
     exampleDiag.range.endCol = (exampleRecord.column : Int) - 1 ∧
     exampleDiag.errMsg = exampleRecord.message ∧
     exampleDiag.severity = getDiagSeverity exampleRecord.kind ∧
     (exampleRecord.kind = "error" → exampleDiag.severity = .Error) ∧
     (exampleRecord.kind = "warning" → exampleDiag.severity = .Warning)) :=
  ⟨by decide, by rfl,
   claimC1_record_to_diagnostic "/abs/path.ly:12:5: error: bad note"
     exampleFs exampleDoc exampleRecord exampleDiag (by decide) (by rfl)⟩

/-- C3: a run's resulting diagnostic collection never depends on the prior
collection (the run clears it before adding anything), and a run over
chunks containing zero regex matches leaves the collection empty. -/
theorem claimC3_clear_before_fill (binPath : String) (config : Config)
    (fs : FileSystem) (doc : TextDocument) (chunks : List String) :
    (∀ prior otherPrior : DiagCol,
      (execIntellisense binPath config fs doc chunks prior).diagCol =
        (execIntellisense binPath config fs doc chunks otherPrior).diagCol) ∧
    ((∀ c ∈ chunks, errMsgRegexExecAll c = []) →
      ∀ (prior : DiagCol) (u : Uri),
        DiagCol.get
          (execIntellisense binPath config fs doc chunks prior).diagCol u =
          none) := by
  constructor
  · intro prior otherPrior
    rfl
  · intro hall prior u
    have hred : (execIntellisense binPath config fs doc chunks prior).diagCol =
        (chunks.foldl
          (fun st chunk => processIntellisenseErrors chunk doc fs st)
          (DiagCol.clear prior, [])).1 := rfl
    rw [hred, foldl_processIntellisenseErrors_no_match doc fs chunks
      (DiagCol.clear prior, []) hall]
    rfl

/-- Witness for C3: a chunk with no match, a nonempty prior collection, and
the run ends with an empty collection. -/
theorem claimC3_clear_before_fill_witness :
    (∀ c ∈ ["GNU LilyPond 2.24.0"], errMsgRegexExecAll c = []) ∧
    DiagCol.get
      (execIntellisense "lilypond" ⟨""⟩ exampleFs exampleDoc
        ["GNU LilyPond 2.24.0"]
        [(⟨"/old.ly"⟩, [⟨.Error, ⟨0, 0, 0, 0⟩, "stale"⟩])]).diagCol
      ⟨"/old.ly"⟩ = none :=
  ⟨by decide,
   (claimC3_clear_before_fill "lilypond" ⟨""⟩ exampleFs exampleDoc
      ["GNU LilyPond 2.24.0"]).2 (by decide)
     [(⟨"/old.ly"⟩, [⟨.Error, ⟨0, 0, 0, 0⟩, "stale"⟩])] ⟨"/old.ly"⟩⟩

/-- C7: the argument vector handed to the compiler is the trimmed,
whitespace-split user argument string followed by exactly the three fixed
flags, in that trailing order; the user part never contains whitespace
characters inside an argument. -/
theorem claimC7_args_composition (binPath : String) (config : Config)
    (fs : FileSystem) (doc : TextDocument) (chunks : List String)
    (prior : DiagCol) :
    (execIntellisense binPath config fs doc chunks prior).spawn.args =
      jsSplitWhitespace (jsTrim config.additionalCommandLineArguments) ++
        ["--loglevel=WARNING", "--define-default=backend=null", "-"] ∧
    (∀ a ∈ jsSplitWhitespace (jsTrim config.additionalCommandLineArguments),
      ∀ c ∈ a.data, isWhitespaceChar c = false) ∧
    ((execIntellisense binPath config fs doc chunks prior).spawn.args).drop
        ((execIntellisense binPath config fs doc chunks prior).spawn.args.length
          - 3) =
      ["--loglevel=WARNING", "--define-default=backend=null", "-"] := by
  have hargs : (execIntellisense binPath config fs doc chunks prior).spawn.args =
      jsSplitWhitespace (jsTrim config.additionalCommandLineArguments) ++
        ["--loglevel=WARNING", "--define-default=backend=null", "-"] := rfl
  refine ⟨hargs, ?_, ?_⟩
  · intro a ha c hc
    exact (splitWsAux_no_ws
      (jsTrim config.additionalCommandLineArguments).data [] (by simp)).1
      a ha c hc
  · rw [hargs]
    have hlen :
        (jsSplitWhitespace (jsTrim config.additionalCommandLineArguments) ++
          ["--loglevel=WARNING", "--define-default=backend=null", "-"]).length
          - 3 =
        (jsSplitWhitespace (jsTrim config.additionalCommandLineArguments)).length := by
      simp
    rw [hlen]
    exact List.drop_left _ _

/-- Witness for C7 with the user string `  -dpoint-and-click   --foo `. -/
theorem claimC7_args_composition_witness :
    (execIntellisense "lilypond" ⟨"  -dpoint-and-click   --foo "⟩ exampleFs
        exampleDoc [] []).spawn.args =
      jsSplitWhitespace (jsTrim "  -dpoint-and-click   --foo ") ++
        ["--loglevel=WARNING", "--define-default=backend=null", "-"] ∧
    (execIntellisense "lilypond" ⟨"  -dpoint-and-click   --foo "⟩ exampleFs
        exampleDoc [] []).spawn.args =
      ["-dpoint-and-click", "--foo", "--loglevel=WARNING",
       "--define-default=backend=null", "-"] :=
  ⟨(claimC7_args_composition "lilypond" ⟨"  -dpoint-and-click   --foo "⟩
      exampleFs exampleDoc [] []).1, by decide⟩

/-- C8: a resolution failure is the error carrying the offending raw path
in its message (the thrown `` Error in `path` ``), it is caught per record,
and the collection update over a chunk is exactly the in-order fold of the
resolvable records — failing records drop out individually without
affecting the others. -/
theorem claimC8_per_record_isolation (fs : FileSystem) (doc : TextDocument) :
    (∀ p : String, p ≠ "-" → (pathIsAbsolute p && existsSync fs p) = false →
      existsSync fs (pathJoin (pathDirname doc.uri.fsPath) p) = false →
      getUri fs doc p = .error ("Error in `" ++ p ++ "`")) ∧
    (∀ (output : String) (col : DiagCol) (log : List String),
      (processIntellisenseErrors output doc fs (col, log)).1 =
        ((errMsgRegexExecAll output).filterMap
          (fun r => (processRecord fs doc r).toOption)).foldl
          (fun c d => addToDiagCol d c) col) := by
  constructor
  · intro p h1 h2 h3
    simp [getUri, h1, h2, h3]
  · intro output col log
    exact processIntellisenseErrors_foldl_resolvable fs doc output
      (errMsgRegexExecAll output) col log

/-- Witness for C8: in a chunk holding a record with an absolute,
non-existent path followed by a resolvable record, the first fails with the
error carrying its raw path and only the second reaches the collection. -/
theorem claimC8_per_record_isolation_witness :
    getUri [] exampleDoc "/missing.ly" =
      .error ("Error in `" ++ "/missing.ly" ++ "`") ∧
    (processIntellisenseErrors
        "/missing.ly:1:2: error: nope\n-:3:4: warning: hmm" exampleDoc []
        ([], [])).1 =
      ((errMsgRegexExecAll
          "/missing.ly:1:2: error: nope\n-:3:4: warning: hmm").filterMap
        (fun r => (processRecord [] exampleDoc r).toOption)).foldl
        (fun c d => addToDiagCol d c) [] ∧
    (processIntellisenseErrors
        "/missing.ly:1:2: error: nope\n-:3:4: warning: hmm" exampleDoc []
        ([], [])).1 =
      [(⟨"/abs/doc.ly"⟩, [⟨.Warning, ⟨2, 0, 2, 3⟩, "hmm"⟩])] :=
  ⟨(claimC8_per_record_isolation [] exampleDoc).1 "/missing.ly" (by decide)
     (by decide) (by decide),
   (claimC8_per_record_isolation [] exampleDoc).2
     "/missing.ly:1:2: error: nope\n-:3:4: warning: hmm" [] [],
   by decide⟩

/-- C10: a configured argument string that is empty or all whitespace trims
to the empty string, JavaScript `split(/\s+/)` on the empty string gives
`[""]` (not `[]`), so the composed argument vector starts with an
empty-string argument before the three fixed flags. -/
theorem claimC10_empty_config_args (binPath : String) (config : Config)
    (fs : FileSystem) (doc : TextDocument) (chunks : List String)
    (prior : DiagCol)
    (h : ∀ c ∈ config.additionalCommandLineArguments.data,
      isWhitespaceChar c = true) :
    jsSplitWhitespace (jsTrim config.additionalCommandLineArguments) = [""] ∧
    (execIntellisense binPath config fs doc chunks prior).spawn.args =
      "" :: ["--loglevel=WARNING", "--define-default=backend=null", "-"] := by
  have htrim : jsTrim config.additionalCommandLineArguments = "" := by
    unfold jsTrim
    have hdrop : config.additionalCommandLineArguments.data.dropWhile
        isWhitespaceChar = [] := by
      rw [List.dropWhile_eq_nil_iff]
      intro x hx
      exact h x hx
    rw [hdrop]
    rfl
  have hsplit : jsSplitWhitespace (jsTrim config.additionalCommandLineArguments)
      = [""] := by
    rw [htrim]
    rfl
  refine ⟨hsplit, ?_⟩
  have hargs : (execIntellisense binPath config fs doc chunks prior).spawn.args =
      jsSplitWhitespace (jsTrim config.additionalCommandLineArguments) ++
        ["--loglevel=WARNING", "--define-default=backend=null", "-"] := rfl
  rw [hargs, hsplit]
  rfl

/-- Witness for C10 with the all-whitespace configuration string. -/
theorem claimC10_empty_config_args_witness :
    (∀ c ∈ ("   " : String).data, isWhitespaceChar c = true) ∧
    (jsSplitWhitespace (jsTrim "   ") = [""] ∧
     (execIntellisense "lilypond" ⟨"   "⟩ exampleFs exampleDoc [] []).spawn.args
       = "" :: ["--loglevel=WARNING", "--define-default=backend=null", "-"]) :=
  ⟨by decide,
   claimC10_empty_config_args "lilypond" ⟨"   "⟩ exampleFs exampleDoc [] []
     (by decide)⟩

/-! ### Debounce scheduler lemmas -/

/-- Scheduler invariant: either no timer is armed, or exactly the timer
recorded in the `timeout` variable is armed. -/
def SInv (s : SchedState) : Prop :=
  s.armed = [] ∨
  ∃ id dl d, s.timeoutVar = some id ∧ s.armed = [⟨id, dl, d⟩]

/-- Under the invariant, a trigger cancels whatever was pending and leaves
exactly one armed timer: a fresh one carrying the triggering document with
deadline 500ms from now.  Runs are untouched. -/
theorem triggerIntellisense_spec (t : Nat) (d : TextDocument)
    (s : SchedState) (h : SInv s) :
    (triggerIntellisense t d s).armed = [⟨s.nextId, t + 500, d⟩] ∧
    (triggerIntellisense t d s).timeoutVar = some s.nextId ∧
    (triggerIntellisense t d s).runs = s.runs ∧
    (triggerIntellisense t d s).nextId = s.nextId + 1 := by
  cases hv : s.timeoutVar with
  | none =>
    have harmed : s.armed = [] := by
      cases h with
      | inl h => exact h
      | inr h =>
        obtain ⟨id, dl, dd, h1, _⟩ := h
        rw [hv] at h1
        cases h1
    simp [triggerIntellisense, hv, harmed]
  | some id =>
    cases h with
    | inl harmed =>
      simp [triggerIntellisense, clearTimeoutModel, hv, harmed]
    | inr h =>
      obtain ⟨id2, dl, dd, h1, harmed⟩ := h
      rw [hv] at h1
      injection h1 with h1
      subst h1
      simp [triggerIntellisense, clearTimeoutModel, hv, harmed]

/-- A trigger never invokes the Process Runner by itself. -/
theorem triggerIntellisense_runs (t : Nat) (d : TextDocument)
    (s : SchedState) : (triggerIntellisense t d s).runs = s.runs := by
  cases hv : s.timeoutVar <;>
    simp [triggerIntellisense, clearTimeoutModel, hv]

/-- The invariant is preserved by triggers. -/
theorem SInv_trigger (t : Nat) (d : TextDocument) (s : SchedState)
    (h : SInv s) : SInv (triggerIntellisense t d s) :=
  Or.inr ⟨s.nextId, t + 500, d, (triggerIntellisense_spec t d s h).2.1,
    (triggerIntellisense_spec t d s h).1⟩

/-- The invariant is preserved by any trigger sequence. -/
theorem SInv_runTriggers :
    ∀ (tds : List (Nat × TextDocument)) (s : SchedState),
      SInv s → SInv (runTriggers tds s) := by
  intro tds
  induction tds with
  | nil => intro s h; exact h
  | cons td rest ih =>
    intro s h
    exact ih _ (SInv_trigger td.1 td.2 s h)

/-- Trigger sequences never invoke the Process Runner by themselves. -/
theorem runs_runTriggers :
    ∀ (tds : List (Nat × TextDocument)) (s : SchedState),
      (runTriggers tds s).runs = s.runs := by
  intro tds
  induction tds with
  | nil => intro s; rfl
  | cons td rest ih =>
    intro s
    have : runTriggers (td :: rest) s =
        runTriggers rest (triggerIntellisense td.1 td.2 s) := rfl
    rw [this, ih, triggerIntellisense_runs]

/-- Trigger sequences compose. -/
theorem runTriggers_append (p q : List (Nat × TextDocument))
    (s : SchedState) :
    runTriggers (p ++ q) s = runTriggers q (runTriggers p s) := by
  simp [runTriggers, List.foldl_append]

/-- A delivery attempt strictly before the armed timer's deadline does
nothing, whatever timer id it is for. -/
theorem fireTimer_noop_of_not_due (u id : Nat) (s : SchedState)
    (e : TimerEntry) (hs : s.armed = [e]) (hu : u < e.deadline) :
    fireTimer u id s = s := by
  unfold fireTimer
  rw [hs]
  simp only [List.find?]
  cases hid : (e.id == id) with
  | true =>
    simp only [hid]
    rw [if_neg (Nat.not_le.mpr hu)]
  | false =>
    simp only [hid, List.find?]

/-- After a trigger sequence ending at `(tN, dN)`, exactly one timer is
armed: deadline `tN + 500`, carrying `dN`; runs are inherited. -/
theorem runTriggers_concat_spec (p : List (Nat × TextDocument)) (tN : Nat)
    (dN : TextDocument) (s : SchedState) (h : SInv s) :
    ∃ id, (runTriggers (p ++ [(tN, dN)]) s).armed = [⟨id, tN + 500, dN⟩] ∧
      (runTriggers (p ++ [(tN, dN)]) s).timeoutVar = some id ∧
      (runTriggers (p ++ [(tN, dN)]) s).runs = s.runs := by
  rw [runTriggers_append]
  have hinv := SInv_runTriggers p s h
  have hsingle : runTriggers [(tN, dN)] (runTriggers p s) =
      triggerIntellisense tN dN (runTriggers p s) := rfl
  rw [hsingle]
  obtain ⟨h1, h2, h3, _⟩ := triggerIntellisense_spec tN dN (runTriggers p s) hinv
  refine ⟨(runTriggers p s).nextId, h1, h2, ?_⟩
  rw [h3, runs_runTriggers]

/-- C6: for a trigger sequence whose events are each less than the 500ms
quiet interval apart, every trigger cancels the previously pending timer
and arms a fresh one, so after the whole sequence exactly one timer is
pending, carrying the latest document; no invocation happens during the
sequence, none can happen between consecutive triggers or before the final
deadline, at most one timer is pending after every prefix, and firing the
pending timer at its deadline performs exactly one Process Runner
invocation, on the latest document. -/
theorem claimC6_debounce (ts : List (Nat × TextDocument)) (tN : Nat)
    (dN : TextDocument) (tds : List (Nat × TextDocument))
    (hconcat : tds = ts ++ [(tN, dN)]) :
    (∃ id, (runTriggers tds schedInit).armed = [⟨id, tN + 500, dN⟩] ∧
      (runTriggers tds schedInit).timeoutVar = some id) ∧
    (runTriggers tds schedInit).runs = [] ∧
    (∀ p q, tds = p ++ q → (runTriggers p schedInit).armed.length ≤ 1) ∧
    (∀ p t d t2 d2 q, tds = p ++ (t, d) :: (t2, d2) :: q → t2 < t + 500 →
      ∀ u id, u ≤ t2 →
        fireTimer u id (runTriggers (p ++ [(t, d)]) schedInit) =
          runTriggers (p ++ [(t, d)]) schedInit) ∧
    (∀ u id, u < tN + 500 →
      fireTimer u id (runTriggers tds schedInit) = runTriggers tds schedInit) ∧
    (∀ id, (runTriggers tds schedInit).timeoutVar = some id →
      (fireTimer (tN + 500) id (runTriggers tds schedInit)).runs = [dN] ∧
      (fireTimer (tN + 500) id (runTriggers tds schedInit)).armed = []) := by
  subst hconcat
  have hinit : SInv schedInit := Or.inl rfl
  obtain ⟨id0, harmed, hvar, hruns⟩ :=
    runTriggers_concat_spec ts tN dN schedInit hinit
  have hrunsnil : (runTriggers (ts ++ [(tN, dN)]) schedInit).runs = [] := hruns
  refine ⟨⟨id0, harmed, hvar⟩, hrunsnil, ?_, ?_, ?_, ?_⟩
  · intro p q hpq
    rcases List.eq_nil_or_concat p with hp | ⟨p0, a, hp⟩
    · subst hp
      simp [runTriggers, schedInit]
    · obtain ⟨ta, da⟩ := a
      rw [List.concat_eq_append] at hp
      subst hp
      obtain ⟨id1, ha, _, _⟩ :=
        runTriggers_concat_spec p0 ta da schedInit hinit
      rw [ha]
      simp
  · intro p t d t2 d2 q _ hgap u id hu
    obtain ⟨id1, ha, _, _⟩ :=
      runTriggers_concat_spec p t d schedInit hinit
    exact fireTimer_noop_of_not_due u id _ _ ha (show u < t + 500 by omega)
  · intro u id hu
    exact fireTimer_noop_of_not_due u id _ _ harmed hu
  · intro id hid
    rw [hvar] at hid
    injection hid with hid
    subst hid
    constructor
    · unfold fireTimer
      rw [harmed]
      simp [List.find?, hrunsnil]
    · unfold fireTimer
      rw [harmed]
      simp [List.find?]

/-- Further concrete documents for the debounce witness. -/
def exampleDocB : TextDocument := ⟨⟨"/b.ly"⟩, "b"⟩

def exampleDocC : TextDocument := ⟨⟨"/c.ly"⟩, "c"⟩

/-- Witness for C6: three triggers at 0ms, 100ms, 250ms (within the quiet
window of each other); nothing runs during the sequence, and firing the
single pending timer at its 750ms deadline runs exactly the third
document. -/
theorem claimC6_debounce_witness :
    (runTriggers [(0, exampleDoc), (100, exampleDocB), (250, exampleDocC)]
      schedInit).runs = [] ∧
    (fireTimer 750 2
      (runTriggers [(0, exampleDoc), (100, exampleDocB), (250, exampleDocC)]
        schedInit)).runs = [exampleDocC] := by
  have h := claimC6_debounce [(0, exampleDoc), (100, exampleDocB)] 250
    exampleDocC [(0, exampleDoc), (100, exampleDocB), (250, exampleDocC)] rfl
  exact ⟨h.2.1, (h.2.2.2.2.2 2 (by decide)).1⟩
